import Mathlib

/-!
Verification development for the quantimodo-info-site maintenance scripts.

The repository contains three Node.js scripts:
  * two near-identical WordPress-legacy cleanup scripts (src/unnamed/part_000
    with 4 removal patterns, src/unnamed/part_001 with 7 removal patterns),
  * one SEO audit script (src/scripts/seo-audit.js).

Strings are modelled as `List Char`.  Each concrete JavaScript regular
expression used by the scripts is embedded as an executable matcher whose
behaviour at a position coincides with the backtracking semantics of the
original pattern; the determinisations performed are justified in comments
at each definition.  `String.match(re)` with the `g` flag and
`String.replace(re, '')` are modelled by a single left-to-right scanner
(`scanF`) that finds the same non-overlapping leftmost matches the
JavaScript engine finds and deletes them.
-/

set_option maxRecDepth 40000

namespace SiteHygiene

/-- Character list of a string literal; JS strings are modelled as `List Char`. -/
def cl (s : String) : List Char := s.toList

/-- Code-point range test used for character classes. -/
def inRange (lo hi : Nat) (c : Char) : Bool := decide (lo ≤ c.toNat ∧ c.toNat ≤ hi)

/-- The ECMAScript `\s` class (WhiteSpace ∪ LineTerminator), also the set
trimmed by `String.prototype.trim`. -/
def isWsJS (c : Char) : Bool :=
  c == ' ' || c == '\t' || c == '\n' || c == '\r' || c == '\x0b' || c == '\x0c' ||
  c == ' ' || c == ' ' || inRange 0x2000 0x200a c ||
  c == ' ' || c == ' ' || c == ' ' || c == ' ' ||
  c == '　' || c == '﻿'

/-- The ECMAScript `\w` class: `[A-Za-z0-9_]`. -/
def isWordChar (c : Char) : Bool :=
  inRange 0x41 0x5a c || inRange 0x61 0x7a c || inRange 0x30 0x39 c || c == '_'

/-- ASCII letter, case-insensitively: what `[a-z]` matches under the `i` flag. -/
def isAsciiLetter (c : Char) : Bool := inRange 0x41 0x5a c || inRange 0x61 0x7a c

/-- The ECMAScript `.` class (anything but a line terminator). -/
def isDotChar (c : Char) : Bool :=
  !(c == '\n' || c == '\r' || c == ' ' || c == ' ')

/-- A single or double quote, what `["']` matches. -/
def isQuoteChar (c : Char) : Bool := c == '"' || c == '\''

/-- JS `String.prototype.length` counts UTF-16 code units: an astral code
point contributes 2. -/
def jsLength (l : List Char) : Nat :=
  (l.map (fun c => if 0x10000 ≤ c.toNat then 2 else 1)).sum

/-- JS `String.prototype.trim`. -/
def jsTrim (l : List Char) : List Char :=
  ((l.dropWhile isWsJS).reverse.dropWhile isWsJS).reverse

/-- Length of the maximal `\s` run at the front of `s`. -/
def wsRun (s : List Char) : Nat := (s.takeWhile isWsJS).length

/-- Length of the maximal `\d` run at the front of `s`. -/
def digRun (s : List Char) : Nat := (s.takeWhile Char.isDigit).length

/-- Case-insensitive literal prefix test (`i`-flag literal matching;
ASCII case folding, which is all the scripts' literals need). -/
def litCI : List Char → List Char → Bool
  | [], _ => true
  | _ :: _, [] => false
  | a :: as, b :: bs => (a.toLower == b.toLower) && litCI as bs

/-- Index of the first occurrence of `w` as a sublist of `s` (the position at
which a lazy `[\s\S]*?` stops before a literal `w`). -/
def findSub (w : List Char) : List Char → Option Nat
  | [] => if List.isPrefixOf w ([] : List Char) then some 0 else none
  | c :: cs =>
    if List.isPrefixOf w (c :: cs) then some 0
    else (findSub w cs).map (fun i => i + 1)

/-- Matcher for `\s*(?=\n)` at the end of a pattern: the greedy `\s*`
backtracks until the lookahead sees `\n`, so it consumes up to (but not
including) the LAST newline inside the maximal whitespace run, and fails
when the run contains no newline.  Returns the number of consumed chars. -/
def lastNlInRun : List Char → Option Nat
  | [] => none
  | c :: cs =>
    if isWsJS c then
      match lastNlInRun cs with
      | some t => some (t + 1)
      | none => if c == '\n' then some 0 else none
    else none

/-!  Generic `g`-flag scanner.  `m s` tries to match the pattern at the head
of `s` and returns the consumed length.  `scanF` walks left to right exactly
as the JS engine walks `lastIndex`: a successful match is counted, its span
deleted from the output, and scanning resumes after it; an empty match (which
none of the repository's patterns can produce) is counted and scanning
advances one character, as JS does.  `fuel` only bounds the recursion; the
initial value `s.length` is enough because every step consumes at least one
character of `s`. -/

def scanF (m : List Char → Option Nat) : Nat → List Char → Nat × List Char
  | 0, s => (0, s)
  | Nat.succ _, [] => (0, [])
  | Nat.succ fuel, c :: cs =>
    match m (c :: cs) with
    | some (Nat.succ n) =>
      let r := scanF m fuel (cs.drop n)
      (r.1 + 1, r.2)
    | some 0 =>
      let r := scanF m fuel cs
      (r.1 + 1, c :: r.2)
    | none =>
      let r := scanF m fuel cs
      (r.1, c :: r.2)

/-- `String.match(re)` count together with `String.replace(re, '')` result. -/
def scan (m : List Char → Option Nat) (s : List Char) : Nat × List Char :=
  scanF m s.length s

/-- The list of matched substrings of a `g`-flag scan (what `String.match`
returns), used by the entity detail extractor. -/
def scanMatchesF (m : List Char → Option Nat) : Nat → List Char → List (List Char)
  | 0, _ => []
  | Nat.succ _, [] => []
  | Nat.succ fuel, c :: cs =>
    match m (c :: cs) with
    | some (Nat.succ n) => ((c :: cs).take (n + 1)) :: scanMatchesF m fuel (cs.drop n)
    | some 0 => [] :: scanMatchesF m fuel cs
    | none => scanMatchesF m fuel cs

def scanMatches (m : List Char → Option Nat) (s : List Char) : List (List Char) :=
  scanMatchesF m s.length s

/-!  Cleanup removal patterns.

Every removal regex in both cleanup scripts has the shape

    (prefix tokens) [\s\S]*? (closing literal) (tail)

where the prefix tokens are literals possibly separated by `\s*` (plus one
`[^>]*>` and one `\d+`), and the tail is empty, `\s*`, or `\s*(?=\n)`.
For these concrete patterns the prefix part is deterministic:
  * every `\s*` is followed by a literal starting with a non-whitespace
    character, so the greedy run never backtracks below its maximum;
  * `[^>]*` is followed by `>`, so it consumes exactly up to the first `>`;
  * `\d+` is followed by `"`, so it consumes exactly the maximal digit run.
The lazy `[\s\S]*?` stops at the first position where the closing literal
matches AND the tail succeeds (the tail can only fail for `\s*(?=\n)`),
which `findClose` implements directly. -/

inductive PreTok where
  | lit (w : List Char)
  | ws
  | upToGt
  | digits1
  deriving Repr

inductive Tail where
  | noTail
  | wsTail
  | wsNlTail
  deriving Repr, DecidableEq

structure Pat where
  pre : List PreTok
  close : List Char
  tail : Tail

/-- Match the deterministic prefix tokens at the head of `s`; returns the
consumed length. -/
def matchPre : List PreTok → List Char → Option Nat
  | [], _ => some 0
  | PreTok.lit w :: rest, s =>
    if List.isPrefixOf w s then (matchPre rest (s.drop w.length)).map (fun n => n + w.length)
    else none
  | PreTok.ws :: rest, s =>
    let t := wsRun s
    (matchPre rest (s.drop t)).map (fun n => n + t)
  | PreTok.upToGt :: rest, s =>
    match s.findIdx? (fun c => c == '>') with
    | some g => (matchPre rest (s.drop (g + 1))).map (fun n => n + (g + 1))
    | none => none
  | PreTok.digits1 :: rest, s =>
    let t := digRun s
    if t == 0 then none
    else (matchPre rest (s.drop t)).map (fun n => n + t)

/-- Match the tail of a pattern (everything after the closing literal). -/
def matchTail : Tail → List Char → Option Nat
  | Tail.noTail, _ => some 0
  | Tail.wsTail, s => some (wsRun s)
  | Tail.wsNlTail, s => lastNlInRun s

/-- The lazy part: find the first offset at which the closing literal matches
and the tail succeeds; returns total consumed length from the given point
(lazy gap + closing literal + tail). -/
def findClose (close : List Char) (tail : Tail) : List Char → Option Nat
  | [] => none
  | c :: cs =>
    if List.isPrefixOf close (c :: cs) then
      match matchTail tail ((c :: cs).drop close.length) with
      | some m => some (close.length + m)
      | none => (findClose close tail cs).map (fun i => i + 1)
    else
      (findClose close tail cs).map (fun i => i + 1)

/-- Try to match a whole removal pattern at the head of `s`. -/
def matchPat (p : Pat) (s : List Char) : Option Nat :=
  match matchPre p.pre s with
  | none => none
  | some k =>
    match findClose p.close p.tail (s.drop k) with
    | some m => some (k + m)
    | none => none

/-- `/<section class="main-color container-wrap social-share-wrap">[\s\S]*?<\/section>\s*(?=\n)/g` -/
def patSocialShare : Pat :=
  { pre := [PreTok.lit (cl "<section class=\"main-color container-wrap social-share-wrap\">")],
    close := cl "</section>", tail := Tail.wsNlTail }

/-- `/<section class="container-wrap">\s*<div class="container">\s*<div class="related-wrap">[\s\S]*?<\/section>\s*(?=\n)/g` -/
def patRelated : Pat :=
  { pre := [PreTok.lit (cl "<section class=\"container-wrap\">"), PreTok.ws,
            PreTok.lit (cl "<div class=\"container\">"), PreTok.ws,
            PreTok.lit (cl "<div class=\"related-wrap\">")],
    close := cl "</section>", tail := Tail.wsNlTail }

/-- `/\s*<nav class="pagination-sticky[\s\S]*?<\/nav><!-- \.navigation -->\s*/g` -/
def patPagination : Pat :=
  { pre := [PreTok.ws, PreTok.lit (cl "<nav class=\"pagination-sticky")],
    close := cl "</nav><!-- .navigation -->", tail := Tail.wsTail }

/-- `/\s*<!-- Begin Comments -->[\s\S]*?<!-- End Comments -->\s*/g` -/
def patComments : Pat :=
  { pre := [PreTok.ws, PreTok.lit (cl "<!-- Begin Comments -->")],
    close := cl "<!-- End Comments -->", tail := Tail.wsTail }

/-- `/\s*<div class="article-meta">[\s\S]*?<\/div><!--end article-meta-->\s*/g` (part_001 only) -/
def patArticleMeta : Pat :=
  { pre := [PreTok.ws, PreTok.lit (cl "<div class=\"article-meta\">")],
    close := cl "</div><!--end article-meta-->", tail := Tail.wsTail }

/-- `/<style[^>]*>#go-pricing-table[\s\S]*?<\/style>/g` (part_001 only) -/
def patGoPricingStyle : Pat :=
  { pre := [PreTok.lit (cl "<style"), PreTok.upToGt, PreTok.lit (cl "#go-pricing-table")],
    close := cl "</style>", tail := Tail.noTail }

/-- `/<div id="go-pricing-table-\d+" class="go-pricing"[\s\S]*?<\/div><\/div><\/div><\/div><\/div>/g` (part_001 only) -/
def patGoPricingHtml : Pat :=
  { pre := [PreTok.lit (cl "<div id=\"go-pricing-table-"), PreTok.digits1,
            PreTok.lit (cl "\" class=\"go-pricing\"")],
    close := cl "</div></div></div></div></div>", tail := Tail.noTail }

/-- One entry of a cleanup script's `REMOVAL_PATTERNS` table. -/
structure Rule where
  name : String
  pat : Pat

/-- `REMOVAL_PATTERNS` of src/unnamed/part_000 (four rules). -/
def REMOVAL_PATTERNS0 : List Rule :=
  [⟨"Social Share Section", patSocialShare⟩,
   ⟨"Related Articles Carousel", patRelated⟩,
   ⟨"Pagination Navigation", patPagination⟩,
   ⟨"Comments Section", patComments⟩]

/-- `REMOVAL_PATTERNS` of src/unnamed/part_001 (seven rules; a superset of
part_000's table, in the same order). -/
def REMOVAL_PATTERNS1 : List Rule :=
  [⟨"Social Share Section", patSocialShare⟩,
   ⟨"Related Articles Carousel", patRelated⟩,
   ⟨"Pagination Navigation", patPagination⟩,
   ⟨"Comments Section", patComments⟩,
   ⟨"Article Meta Section", patArticleMeta⟩,
   ⟨"Go Pricing Table Styles", patGoPricingStyle⟩,
   ⟨"Go Pricing Table HTML", patGoPricingHtml⟩]

/-- Result of `cleanupContent`: the transformed document, the total removal
count, and the per-rule removal counts this call contributed to the global
`stats.removalsByType` (only rules with a positive count appear, in table
order, exactly as the script only touches `removalsByType` when `count > 0`). -/
structure CleanOut where
  modified : List Char
  totalRemovals : Nat
  perRule : List (String × Nat)
  deriving DecidableEq

/-- The `for (const { name, pattern } of REMOVAL_PATTERNS)` loop of
`cleanupContent`: each rule counts its matches in the current document and,
when the count is positive, deletes them. -/
def cleanupGo : List Rule → CleanOut → CleanOut
  | [], o => o
  | r :: rest, o =>
    let m := scan (matchPat r.pat) o.modified
    if 0 < m.1 then
      cleanupGo rest ⟨m.2, o.totalRemovals + m.1, o.perRule ++ [(r.name, m.1)]⟩
    else
      cleanupGo rest o

/-- `cleanupContent(content)` of the cleanup scripts, parameterised by the
rule table (part_000 and part_001 share the function body verbatim and
differ only in their `REMOVAL_PATTERNS`). -/
def cleanupContent (table : List Rule) (content : List Char) : CleanOut :=
  cleanupGo table ⟨content, 0, []⟩

/-- `processFile`'s pure core: the cleanup result plus the write-back effect.
`some doc` means the file is overwritten with `doc`; `none` means the file is
left untouched.  The script writes only when `totalRemovals > 0 && !dryRun`. -/
def processFile (table : List Rule) (content : List Char) (dryRun : Bool) :
    CleanOut × Option (List Char) :=
  let o := cleanupContent table content
  (o, if 0 < o.totalRemovals && !dryRun then some o.modified else none)

/-!  Frontmatter parsing (`parseFrontmatter` of src/scripts/seo-audit.js).

The frontmatter object is modelled as an insertion-ordered association list
with JavaScript's assignment semantics: writing to an existing key updates
the value in place, a new key is appended. -/

/-- A parsed frontmatter object. -/
abbrev Fm := List (List Char × List Char)

/-- `frontmatter[key] = value` (JS object assignment). -/
def objSet : Fm → List Char → List Char → Fm
  | [], k, v => [(k, v)]
  | (k', v') :: rest, k, v =>
    if k' == k then (k', v) :: rest else (k', v') :: objSet rest k v

/-- `frontmatter[key]` (JS property read; `none` is `undefined`). -/
def objGet (fm : Fm) (k : List Char) : Option (List Char) :=
  (fm.find? (fun p => p.1 == k)).map (fun p => p.2)

/-- JS truthiness of an optional string: `undefined` and `""` are falsy. -/
def truthy : Option (List Char) → Bool
  | none => false
  | some [] => false
  | some (_ :: _) => true

/-- `content.replace(/\r\n/g, '\n')`: left-to-right non-overlapping
replacement of CRLF by LF. -/
def normalize : List Char → List Char
  | [] => []
  | [c] => [c]
  | a :: b :: cs =>
    if a == '\r' && b == '\n' then '\n' :: normalize cs
    else a :: normalize (b :: cs)

/-- `yaml.split('\n')` (JS split: always at least one piece, empty pieces
kept). -/
def splitNl : List Char → List (List Char)
  | [] => [[]]
  | c :: cs =>
    if c == '\n' then [] :: splitNl cs
    else
      match splitNl cs with
      | [] => [[c]]
      | g :: gs => (c :: g) :: gs

/-- Trailing-`\s*` trimming used when anchoring `\s*$`. -/
def trimTrailWs (l : List Char) : List Char := (l.reverse.dropWhile isWsJS).reverse

/-- Matcher for `\s*["'](.*)["']\s*$` applied to the text after `key:`.
The greedy `\s*` before the opening quote is deterministic (a quote is not
whitespace).  After the opening quote, a successful match needs the rest to
be `v ++ [closing quote] ++ trailing whitespace` — and since a quote is not
whitespace, the only candidate closing quote is the last non-whitespace
character.  The capture `v` must consist of `.`-chars (no line terminators),
which can only fail on a stray carriage return. -/
def quotedValue (r : List Char) : Option (List Char) :=
  match r.drop (wsRun r) with
  | [] => none
  | q :: t =>
    if isQuoteChar q then
      let t' := trimTrailWs t
      match t'.getLast? with
      | some q' =>
        if isQuoteChar q' && t'.dropLast.all isDotChar then some t'.dropLast else none
      | none => none
    else none

/-- Whether a list is all `\s` characters (for anchoring `\s*$`). -/
def allWs (l : List Char) : Bool := l.all isWsJS

/-- The lazy `(.+?)\s*$` part of the bare-value regex: the minimal non-empty
`.`-prefix whose remainder is all whitespace. -/
def lazyVal : List Char → Option (List Char)
  | [] => none
  | c :: cs =>
    if isDotChar c then
      if allWs cs then some [c] else (lazyVal cs).map (fun v => c :: v)
    else none

/-- Backtracking of the greedy `\s*` before `(.+?)\s*$`: try the longest
whitespace prefix first, then shorter ones. -/
def bareDown (r : List Char) : Nat → Option (List Char)
  | 0 => lazyVal r
  | Nat.succ w =>
    match lazyVal (r.drop (w + 1)) with
    | some v => some v
    | none => bareDown r w

/-- Matcher for `\s*(.+?)\s*$` applied to the text after `key:`
(the second line regex `^(\w+):\s*(.+?)\s*$`). -/
def bareValue (r : List Char) : Option (List Char) := bareDown r (wsRun r)

/-- One line of the yaml block:
`line.match(/^(\w+):\s*["'](.*)["']\s*$/) || line.match(/^(\w+):\s*(.+?)\s*$/)`.
The greedy `(\w+)` followed by `:` is deterministic (`:` is not a word
character), so both regexes share the same key. -/
def parseLine (line : List Char) : Option (List Char × List Char) :=
  let k := line.takeWhile isWordChar
  if k.isEmpty then none
  else
    match line.drop k.length with
    | ':' :: r =>
      match quotedValue r with
      | some v => some (k, v)
      | none => (bareValue r).map (fun v => (k, v))
    | _ => none

/-- Fold the yaml block's lines into a frontmatter object (lines that match
neither regex are silently ignored). -/
def parseYaml (yaml : List Char) : Fm :=
  (splitNl yaml).foldl
    (fun fm line =>
      match parseLine line with
      | some kv => objSet fm kv.1 kv.2
      | none => fm)
    []

/-- `parseFrontmatter(content)`: normalise CRLF, match the anchored regex
`^---\n([\s\S]*?)\n---` (note: the closing delimiter is any newline
followed by `---`, whatever follows on that line), and parse the captured
block; every failure mode yields the empty object. -/
def parseFrontmatter (content : List Char) : Fm :=
  let n := normalize content
  if List.isPrefixOf (cl "---\n") n then
    match findSub (cl "\n---") (n.drop 4) with
    | some i => parseYaml ((n.drop 4).take i)
    | none => []
  else []

/-!  Content matchers used by the SEO checks. -/

/-- Matcher for `<h1[^>]*>` (with `i` flag) at the head of `s`: the literal
`<h1` case-insensitively, then up to the first `>` (the greedy `[^>]*`
followed by a required `>` consumes exactly that). -/
def h1At (s : List Char) : Option Nat :=
  if litCI (cl "<h1") s then
    match (s.drop 3).findIdx? (fun c => c == '>') with
    | some g => some (3 + g + 1)
    | none => none
  else none

/-- Number of `<h1[^>]*>` matches (`content.match(/<h1[^>]*>/gi)`). -/
def h1Count (content : List Char) : Nat := (scan h1At content).1

/-- Test `p` at every suffix position while the position is still left of the
first `>`; used to evaluate `[^>]*`-bounded conditions inside an `img` tag. -/
def scanNoGt (p : List Char → Bool) : List Char → Bool
  | [] => false
  | c :: cs => if c == '>' then false else p (c :: cs) || scanNoGt p cs

/-- The `alt=["']\s*["']` condition at a position (the `\s*` between the
quotes is deterministic: a quote is not whitespace). -/
def emptyAltHere (t : List Char) : Bool :=
  if litCI (cl "alt=") t then
    match t.drop 4 with
    | q1 :: u =>
      isQuoteChar q1 &&
        (match u.drop (wsRun u) with
         | q2 :: _ => isQuoteChar q2
         | [] => false)
    | [] => false
  else false

/-- Matcher for `<img(?![^>]*alt=)[^>]*>` (with `i` flag) at the head of `s`:
`<img` case-insensitively, the negative lookahead fails iff `alt=` occurs
before the first `>`, and the match then extends through that first `>`. -/
def imgNoAltAt (s : List Char) : Option Nat :=
  if litCI (cl "<img") s then
    let rest := s.drop 4
    match rest.findIdx? (fun c => c == '>') with
    | some g => if scanNoGt (litCI (cl "alt=")) rest then none else some (4 + g + 1)
    | none => none
  else none

/-- Matcher for `<img[^>]*alt=["']\s*["'][^>]*>` (with `i` flag) at the head
of `s`: all of `alt=`, the quotes and the whitespace between them are
non-`>` characters, so the whole condition lies before the first `>` and the
match again extends through that first `>`. -/
def imgEmptyAltAt (s : List Char) : Option Nat :=
  if litCI (cl "<img") s then
    let rest := s.drop 4
    match rest.findIdx? (fun c => c == '>') with
    | some g => if scanNoGt emptyAltHere rest then some (4 + g + 1) else none
    | none => none
  else none

def imgNoAltCount (content : List Char) : Nat := (scan imgNoAltAt content).1

def imgEmptyAltCount (content : List Char) : Nat := (scan imgEmptyAltAt content).1

/-- Matcher for `&#\d+;|&[a-z]+;` (with `i` flag) at the head of `s`.  In
both alternatives the greedy repetition is followed by `;`, which is neither
a digit nor a letter, so each alternative is deterministic; the first
alternative is tried first, as JS does. -/
def entityAt (s : List Char) : Option Nat :=
  let alt2 : Option Nat :=
    match s with
    | '&' :: rest =>
      let a := (rest.takeWhile isAsciiLetter).length
      if a == 0 then none
      else
        match rest.drop a with
        | ';' :: _ => some (1 + a + 1)
        | _ => none
    | _ => none
  match s with
  | '&' :: '#' :: rest =>
    let d := digRun rest
    if d == 0 then alt2
    else
      match rest.drop d with
      | ';' :: _ => some (2 + d + 1)
      | _ => alt2
  | _ => alt2

/-- `/&#\d+;|&[a-z]+;/i.test(v)` -/
def entityTest (v : List Char) : Bool := (scan entityAt v).1 != 0

/-- `v.match(/&#\d+;|&[a-z]+;/gi)` as strings. -/
def entityMatches (v : List Char) : List String :=
  (scanMatches entityAt v).map String.mk

/-!  The SEO check table (`SEO_CHECKS` of src/scripts/seo-audit.js). -/

inductive Sev where
  | error
  | warning
  | info
  deriving DecidableEq, Repr

/-- `severityLevels = { error: 3, warning: 2, info: 1 }` -/
def sevLevel : Sev → Nat
  | Sev.error => 3
  | Sev.warning => 2
  | Sev.info => 1

/-- A finding pushed to a file's issue list. -/
structure Finding where
  check : String
  severity : Sev
  details : Option String
  deriving DecidableEq, Repr

/-- One entry of `SEO_CHECKS`.  `details = none` models a rule without a
`details` property.  A detail function returns `none` when the JS function
would throw (a property access on a missing key). -/
structure SeoCheck where
  name : String
  check : List Char → Fm → Bool
  severity : Sev
  details : Option (List Char → Fm → Option String)

def kTitle : List Char := cl "title"
def kDescription : List Char := cl "description"
def kOgImage : List Char := cl "ogImage"
def kOgUrl : List Char := cl "ogUrl"
def kCanonicalUrl : List Char := cl "canonicalUrl"

/-- `!frontmatter.X || frontmatter.X.trim() === ''` -/
def missingFieldCheck (k : List Char) (fm : Fm) : Bool :=
  match objGet fm k with
  | none => true
  | some v => v.isEmpty || (jsTrim v).isEmpty

/-- `ends with short word fragment`: some position matches `\s\w{1,3}$`,
i.e. a whitespace character followed by one to three word characters that
run to the end of the string. -/
def endsShortFrag : List Char → Bool
  | [] => false
  | c :: cs =>
    (isWsJS c && !cs.isEmpty && decide (cs.length ≤ 3) && cs.all isWordChar) ||
      endsShortFrag cs

/-- `desc.match(/[.!?"]$/)`: the last character is terminal punctuation or a
double quote. -/
def endsTerminalPunct (l : List Char) : Bool :=
  match l.getLast? with
  | some c => c == '.' || c == '!' || c == '?' || c == '"'
  | none => false

/-- The `Truncated Description` predicate:
`!description → false`, otherwise on the trimmed description
`length > 50 && (endsWith('...') || /\s\w{1,3}$/ || !/[.!?"]$/)`. -/
def truncatedDescriptionCheck (_content : List Char) (fm : Fm) : Bool :=
  match objGet fm kDescription with
  | none => false
  | some d =>
    if d.isEmpty then false
    else
      let desc := jsTrim d
      decide (50 < jsLength desc) &&
        (List.isSuffixOf (cl "...") desc || endsShortFrag desc || !endsTerminalPunct desc)

/-- `Description Too Short` predicate: present and `length < 50`. -/
def descTooShortCheck (_content : List Char) (fm : Fm) : Bool :=
  match objGet fm kDescription with
  | none => false
  | some d => if d.isEmpty then false else decide (jsLength d < 50)

/-- `Description Too Long` predicate: present and `length > 160`. -/
def descTooLongCheck (_content : List Char) (fm : Fm) : Bool :=
  match objGet fm kDescription with
  | none => false
  | some d => if d.isEmpty then false else decide (160 < jsLength d)

/-- `Contains HTML Entities` predicate. -/
def entitiesCheck (_content : List Char) (fm : Fm) : Bool :=
  let t :=
    match objGet fm kTitle with
    | some v => !v.isEmpty && entityTest v
    | none => false
  let d :=
    match objGet fm kDescription with
    | some v => !v.isEmpty && entityTest v
    | none => false
  t || d

/-- Deduplicate preserving first occurrence (`[...new Set(entities)]`). -/
def dedupAux (seen : List String) : List String → List String
  | [] => []
  | x :: xs => if seen.contains x then dedupAux seen xs else x :: dedupAux (seen ++ [x]) xs

def dedupStr (l : List String) : List String := dedupAux [] l

/-- Entity occurrences of the title then the description, in order, guarded
by truthiness as in the script. -/
def entityOccurrences (fm : Fm) : List String :=
  let t :=
    match objGet fm kTitle with
    | some v => if v.isEmpty then [] else entityMatches v
    | none => []
  let d :=
    match objGet fm kDescription with
    | some v => if v.isEmpty then [] else entityMatches v
    | none => []
  t ++ d

def multipleH1Details (content : List Char) (_fm : Fm) : Option String :=
  some ("Found " ++ toString (h1Count content) ++ " h1 tags")

def truncatedDescriptionDetails (_content : List Char) (fm : Fm) : Option String :=
  (objGet fm kDescription).map
    (fun d => "\"" ++ String.mk (d.take 80) ++ "...\"")

def descLengthDetails (_content : List Char) (fm : Fm) : Option String :=
  (objGet fm kDescription).map
    (fun d => toString (jsLength d) ++ " chars (recommended: 120-160)")

def imagesAltDetails (content : List Char) (_fm : Fm) : Option String :=
  some (toString (imgNoAltCount content) ++ " missing, " ++
        toString (imgEmptyAltCount content) ++ " empty")

def entitiesDetails (_content : List Char) (fm : Fm) : Option String :=
  some ("Found: " ++ String.intercalate ", " (dedupStr (entityOccurrences fm)))

def seoMissingH1 : SeoCheck :=
  ⟨"Missing H1 Tag", fun content _ => h1Count content == 0, Sev.error, none⟩

def seoMultipleH1 : SeoCheck :=
  ⟨"Multiple H1 Tags", fun content _ => decide (1 < h1Count content), Sev.warning,
   some multipleH1Details⟩

def seoMissingTitle : SeoCheck :=
  ⟨"Missing Title", fun _ fm => missingFieldCheck kTitle fm, Sev.error, none⟩

def seoMissingDescription : SeoCheck :=
  ⟨"Missing Description", fun _ fm => missingFieldCheck kDescription fm, Sev.error, none⟩

def seoTruncatedDescription : SeoCheck :=
  ⟨"Truncated Description", truncatedDescriptionCheck, Sev.warning,
   some truncatedDescriptionDetails⟩

def seoDescriptionTooShort : SeoCheck :=
  ⟨"Description Too Short", descTooShortCheck, Sev.warning, some descLengthDetails⟩

def seoDescriptionTooLong : SeoCheck :=
  ⟨"Description Too Long", descTooLongCheck, Sev.info, some descLengthDetails⟩

def seoMissingOgImage : SeoCheck :=
  ⟨"Missing OG Image", fun _ fm => missingFieldCheck kOgImage fm, Sev.warning, none⟩

def seoImagesMissingAlt : SeoCheck :=
  ⟨"Images Missing Alt Text",
   fun content _ => decide (0 < imgNoAltCount content) || decide (0 < imgEmptyAltCount content),
   Sev.warning, some imagesAltDetails⟩

def seoContainsEntities : SeoCheck :=
  ⟨"Contains HTML Entities", entitiesCheck, Sev.warning, some entitiesDetails⟩

def seoMissingCanonical : SeoCheck :=
  ⟨"Missing Canonical URL",
   fun _ fm => !truthy (objGet fm kOgUrl) && !truthy (objGet fm kCanonicalUrl),
   Sev.info, none⟩

/-- The `SEO_CHECKS` table, in source order. -/
def SEO_CHECKS : List SeoCheck :=
  [seoMissingH1, seoMultipleH1, seoMissingTitle, seoMissingDescription,
   seoTruncatedDescription, seoDescriptionTooShort, seoDescriptionTooLong,
   seoMissingOgImage, seoImagesMissingAlt, seoContainsEntities, seoMissingCanonical]

/-!  The audit run: statistics and the main loop of seo-audit.js. -/

/-- The audit script's global `stats` object.  `fileIssues` keeps each
per-file issue list that was pushed (the script also stores the file name and
title, which are presentation-only and omitted here). -/
structure AuditStats where
  filesScanned : Nat
  issuesByType : List (String × Nat)
  bySevError : Nat
  bySevWarning : Nat
  bySevInfo : Nat
  fileIssues : List (List Finding)
  deriving DecidableEq, Repr

def initAuditStats : AuditStats := ⟨0, [], 0, 0, 0, []⟩

/-- `stats.issuesByType[name] = (stats.issuesByType[name] || 0) + 1` -/
def bumpCount : List (String × Nat) → String → List (String × Nat)
  | [], k => [(k, 1)]
  | (k', n) :: rest, k =>
    if k' == k then (k', n + 1) :: rest else (k', n) :: bumpCount rest k

/-- The two statistics increments performed for one finding. -/
def bumpStats (st : AuditStats) (name : String) (sev : Sev) : AuditStats :=
  let st1 := { st with issuesByType := bumpCount st.issuesByType name }
  match sev with
  | Sev.error => { st1 with bySevError := st1.bySevError + 1 }
  | Sev.warning => { st1 with bySevWarning := st1.bySevWarning + 1 }
  | Sev.info => { st1 with bySevInfo := st1.bySevInfo + 1 }

/-- `check.details ? check.details(content, frontmatter) : null`, with `none`
meaning the detail computation threw. -/
def detailStep (ck : SeoCheck) (content : List Char) (fm : Fm) : Option (Option String) :=
  match ck.details with
  | none => some none
  | some f =>
    match f content fm with
    | some d => some (some d)
    | none => none

/-- The `for (const check of SEO_CHECKS)` loop for one file.  A rule below
the severity threshold is skipped entirely.  When a rule fires, the issue
object is built first (this is where a throwing detail function would escape:
there is no try/catch in the audit script, so `Except.error` carries the
global stats at the moment of the throw and the uncompleted finding is
lost), then pushed, then both counters are incremented. -/
def checksLoop (minLevel : Nat) (content : List Char) (fm : Fm) :
    List SeoCheck → AuditStats → List Finding → Except AuditStats (AuditStats × List Finding)
  | [], st, fi => Except.ok (st, fi)
  | ck :: rest, st, fi =>
    if sevLevel ck.severity < minLevel then
      checksLoop minLevel content fm rest st fi
    else if ck.check content fm then
      match detailStep ck content fm with
      | none => Except.error st
      | some d =>
        checksLoop minLevel content fm rest (bumpStats st ck.name ck.severity)
          (fi ++ [⟨ck.name, ck.severity, d⟩])
    else
      checksLoop minLevel content fm rest st fi

/-- The audit `main` loop over the enumerated files.  `none` stands for a
file whose read throws: the audit loop has no per-file try/catch, so the
exception aborts the whole run (`Except.error`, carrying the statistics
accumulated so far).  For a readable file: parse, count it as scanned, run
the checks, and push the file's issue list when non-empty. -/
def auditGo (minLevel : Nat) : List (Option (List Char)) → AuditStats → Except AuditStats AuditStats
  | [], st => Except.ok st
  | none :: _, st => Except.error st
  | some content :: rest, st =>
    let fm := parseFrontmatter content
    let st1 := { st with filesScanned := st.filesScanned + 1 }
    match checksLoop minLevel content fm SEO_CHECKS st1 [] with
    | Except.error st2 => Except.error st2
    | Except.ok (st2, fi) =>
      auditGo minLevel rest
        (if fi.isEmpty then st2 else { st2 with fileIssues := st2.fileIssues ++ [fi] })

/-- A whole audit run from the initial statistics. -/
def auditRun (minLevel : Nat) (files : List (Option (List Char))) : Except AuditStats AuditStats :=
  auditGo minLevel files initAuditStats

def exceptIsOk {ε α : Type} : Except ε α → Bool
  | Except.ok _ => true
  | Except.error _ => false

/-- The global statistics of a run, whether it completed or died. -/
def auditResultStats : Except AuditStats AuditStats → AuditStats
  | Except.ok st => st
  | Except.error st => st

/-!  The cleanup scripts' `main` loop and global statistics. -/

/-- A cleanup script's global `stats` object. -/
structure CleanStats where
  filesScanned : Nat
  filesModified : Nat
  removalsByType : List (String × Nat)
  deriving DecidableEq, Repr

def initCleanStats : CleanStats := ⟨0, 0, []⟩

/-- `stats.removalsByType[name] = (stats.removalsByType[name] || 0) + count` -/
def bumpCountBy : List (String × Nat) → String → Nat → List (String × Nat)
  | [], k, m => [(k, m)]
  | (k', n) :: rest, k, m =>
    if k' == k then (k', n + m) :: rest else (k', n) :: bumpCountBy rest k m

/-- `processFile(filePath, dryRun)` with the global statistics threaded
explicitly: count the file as scanned (this happens before the read), run
`cleanupContent` (whose per-rule counts are folded into
`stats.removalsByType` in rule order, as the script does in place), and when
anything was removed count the file as modified and, unless in dry-run mode,
write the result back. -/
def processFileSt (table : List Rule) (dryRun : Bool) (st : CleanStats) (content : List Char) :
    CleanStats × Option (List Char) :=
  let st1 := { st with filesScanned := st.filesScanned + 1 }
  let o := cleanupContent table content
  let merged := o.perRule.foldl (fun acc p => bumpCountBy acc p.1 p.2) st1.removalsByType
  let st2 := { st1 with removalsByType := merged }
  if 0 < o.totalRemovals then
    ({ st2 with filesModified := st2.filesModified + 1 },
     if dryRun then none else some o.modified)
  else (st2, none)

/-- The cleanup `main` loop: each file is processed inside a try/catch, so a
file whose read throws (`none`) is logged and skipped — but only after
`stats.filesScanned++`, which `processFile` performs before reading — and the
loop continues with the remaining files. -/
def cleanupFold (table : List Rule) (dryRun : Bool) :
    List (Option (List Char)) → CleanStats → CleanStats
  | [], st => st
  | none :: rest, st =>
    cleanupFold table dryRun rest { st with filesScanned := st.filesScanned + 1 }
  | some content :: rest, st =>
    cleanupFold table dryRun rest (processFileSt table dryRun st content).1

/-!  Specification-side definition for claim C1. -/

/-- The truncation condition exactly as the specification words it: the
description is present, its trimmed form is longer than 50, and it ends with
an ellipsis marker, or with a short (at most 3 characters) word fragment, or
not with terminal punctuation or a closing quote. -/
def truncatedDescriptionSpec (descOpt : Option (List Char)) : Bool :=
  match descOpt with
  | none => false
  | some d =>
    let desc := jsTrim d
    decide (50 < jsLength desc) &&
      (List.isSuffixOf (cl "...") desc || endsShortFrag desc || !endsTerminalPunct desc)

/-!  Lemmas: the scanner can only delete text, and a scan that found nothing
returned the document unchanged. -/

theorem scanF_length_le (m : List Char → Option Nat) :
    ∀ (fuel : Nat) (s : List Char), (scanF m fuel s).2.length ≤ s.length
  | 0, _ => Nat.le_refl _
  | Nat.succ _, [] => Nat.le_refl _
  | Nat.succ fuel, c :: cs => by
    simp only [scanF]
    cases hm : m (c :: cs) with
    | none =>
      simpa using scanF_length_le m fuel cs
    | some k =>
      cases k with
      | zero =>
        simpa using Nat.succ_le_succ (scanF_length_le m fuel cs)
      | succ n =>
        have h1 := scanF_length_le m fuel (cs.drop n)
        have h2 : (cs.drop n).length ≤ cs.length := by
          rw [List.length_drop]
          exact Nat.sub_le _ _
        simp only [List.length_cons]
        exact Nat.le_succ_of_le (Nat.le_trans h1 h2)

theorem scanF_count_zero (m : List Char → Option Nat) :
    ∀ (fuel : Nat) (s : List Char), (scanF m fuel s).1 = 0 → (scanF m fuel s).2 = s
  | 0, _ => fun _ => rfl
  | Nat.succ _, [] => fun _ => rfl
  | Nat.succ fuel, c :: cs => by
    simp only [scanF]
    cases hm : m (c :: cs) with
    | none =>
      intro h
      simp only at h ⊢
      rw [scanF_count_zero m fuel cs h]
    | some k =>
      cases k with
      | zero => intro h; simp at h
      | succ n => intro h; simp at h

theorem scan_length_le (m : List Char → Option Nat) (s : List Char) :
    (scan m s).2.length ≤ s.length := scanF_length_le m s.length s

theorem scan_count_zero (m : List Char → Option Nat) (s : List Char)
    (h : (scan m s).1 = 0) : (scan m s).2 = s := scanF_count_zero m s.length s h

/-!  Lemmas about the cleanup evaluator. -/

theorem cleanupGo_length_le :
    ∀ (table : List Rule) (o : CleanOut),
      (cleanupGo table o).modified.length ≤ o.modified.length
  | [], _ => Nat.le_refl _
  | r :: rest, o => by
    simp only [cleanupGo]
    by_cases h : 0 < (scan (matchPat r.pat) o.modified).1
    · rw [if_pos h]
      exact Nat.le_trans (cleanupGo_length_le rest _)
        (scan_length_le (matchPat r.pat) o.modified)
    · rw [if_neg h]
      exact cleanupGo_length_le rest o

theorem cleanupGo_no_match :
    ∀ (table : List Rule) (o : CleanOut),
      (∀ r ∈ table, (scan (matchPat r.pat) o.modified).1 = 0) →
      cleanupGo table o = o
  | [], _, _ => rfl
  | r :: rest, o, h => by
    have h0 : (scan (matchPat r.pat) o.modified).1 = 0 := h r (List.mem_cons_self r rest)
    simp only [cleanupGo]
    rw [if_neg (by rw [h0]; exact Nat.lt_irrefl 0)]
    exact cleanupGo_no_match rest o (fun r' hr' => h r' (List.mem_cons_of_mem r hr'))

theorem cleanupGo_total_mono :
    ∀ (table : List Rule) (o : CleanOut),
      o.totalRemovals ≤ (cleanupGo table o).totalRemovals
  | [], _ => Nat.le_refl _
  | r :: rest, o => by
    simp only [cleanupGo]
    by_cases h : 0 < (scan (matchPat r.pat) o.modified).1
    · rw [if_pos h]
      have h1 := cleanupGo_total_mono rest
        ⟨(scan (matchPat r.pat) o.modified).2,
         o.totalRemovals + (scan (matchPat r.pat) o.modified).1,
         o.perRule ++ [(r.name, (scan (matchPat r.pat) o.modified).1)]⟩
      exact Nat.le_trans (Nat.le_add_right _ _) h1
    · rw [if_neg h]
      exact cleanupGo_total_mono rest o

theorem cleanupGo_total_fix :
    ∀ (table : List Rule) (o : CleanOut),
      (cleanupGo table o).totalRemovals = o.totalRemovals → cleanupGo table o = o
  | [], _, _ => rfl
  | r :: rest, o, h => by
    simp only [cleanupGo] at h ⊢
    by_cases hp : 0 < (scan (matchPat r.pat) o.modified).1
    · exfalso
      rw [if_pos hp] at h
      have hmono := cleanupGo_total_mono rest
        ⟨(scan (matchPat r.pat) o.modified).2,
         o.totalRemovals + (scan (matchPat r.pat) o.modified).1,
         o.perRule ++ [(r.name, (scan (matchPat r.pat) o.modified).1)]⟩
      simp only at hmono
      omega
    · rw [if_neg hp] at h ⊢
      exact cleanupGo_total_fix rest o h

/-- A cleanup pass that removed nothing returned the document unchanged and
contributed no per-rule counts. -/
theorem cleanupContent_total_zero (table : List Rule) (content : List Char)
    (h : (cleanupContent table content).totalRemovals = 0) :
    cleanupContent table content = ⟨content, 0, []⟩ :=
  cleanupGo_total_fix table ⟨content, 0, []⟩ h

/-- The cleanup main loop distributes over list append. -/
theorem cleanupFold_append (table : List Rule) (dryRun : Bool) :
    ∀ (xs ys : List (Option (List Char))) (st : CleanStats),
      cleanupFold table dryRun (xs ++ ys) st =
        cleanupFold table dryRun ys (cleanupFold table dryRun xs st)
  | [], _, _ => rfl
  | none :: xs, ys, _st => cleanupFold_append table dryRun xs ys _
  | some _ :: xs, ys, _st => cleanupFold_append table dryRun xs ys _

/-!  Lemmas about the audit loop. -/

/-- Sum of the per-rule (or generally per-key) counters. -/
def sumCounts (l : List (String × Nat)) : Nat := (l.map Prod.snd).sum

/-- The statistics invariant of claim C9: the per-rule counts and the
per-severity counts have the same sum. -/
def statsConsistent (st : AuditStats) : Prop :=
  sumCounts st.issuesByType = st.bySevError + st.bySevWarning + st.bySevInfo

theorem sumCounts_bumpCount :
    ∀ (l : List (String × Nat)) (k : String), sumCounts (bumpCount l k) = sumCounts l + 1
  | [], k => by simp [bumpCount, sumCounts]
  | (k', n) :: rest, k => by
    by_cases h : (k' == k) = true
    · simp [bumpCount, h, sumCounts]
      omega
    · have hr := sumCounts_bumpCount rest k
      simp only [bumpCount, h] at *
      simp [sumCounts] at hr ⊢
      omega

theorem bumpStats_consistent (st : AuditStats) (name : String) (sev : Sev)
    (h : statsConsistent st) : statsConsistent (bumpStats st name sev) := by
  cases sev <;>
    simp [bumpStats, statsConsistent, sumCounts_bumpCount] at h ⊢ <;> omega

/-- The statistics visible after the per-file check loop, whether it ran to
completion or died in a detail computation. -/
def checksLoopStats : Except AuditStats (AuditStats × List Finding) → AuditStats
  | Except.ok p => p.1
  | Except.error st => st

theorem checksLoop_consistent (minLevel : Nat) (content : List Char) (fm : Fm) :
    ∀ (table : List SeoCheck) (st : AuditStats) (fi : List Finding),
      statsConsistent st →
      statsConsistent (checksLoopStats (checksLoop minLevel content fm table st fi))
  | [], _, _, h => h
  | ck :: rest, st, fi, h => by
    simp only [checksLoop]
    by_cases hskip : sevLevel ck.severity < minLevel
    · rw [if_pos hskip]
      exact checksLoop_consistent minLevel content fm rest st fi h
    · rw [if_neg hskip]
      by_cases hfire : ck.check content fm = true
      · rw [if_pos hfire]
        cases hd : detailStep ck content fm with
        | none => exact h
        | some d =>
          exact checksLoop_consistent minLevel content fm rest _ _
            (bumpStats_consistent st ck.name ck.severity h)
      · rw [if_neg hfire]
        exact checksLoop_consistent minLevel content fm rest st fi h

theorem auditGo_consistent (minLevel : Nat) :
    ∀ (files : List (Option (List Char))) (st : AuditStats),
      statsConsistent st →
      statsConsistent (auditResultStats (auditGo minLevel files st))
  | [], _, h => h
  | none :: _, _, h => h
  | some content :: rest, st, h => by
    simp only [auditGo]
    have h1 : statsConsistent { st with filesScanned := st.filesScanned + 1 } := h
    have h2 := checksLoop_consistent minLevel content (parseFrontmatter content)
      SEO_CHECKS { st with filesScanned := st.filesScanned + 1 } [] h1
    cases hq : checksLoop minLevel content (parseFrontmatter content) SEO_CHECKS
        { st with filesScanned := st.filesScanned + 1 } [] with
    | error st2 =>
      rw [hq] at h2
      exact h2
    | ok p =>
      rw [hq] at h2
      have h3 : statsConsistent (if p.2.isEmpty then p.1
          else { p.1 with fileIssues := p.1.fileIssues ++ [p.2] }) := by
        by_cases he : p.2.isEmpty
        · simpa [he] using h2
        · simpa [he] using h2
      exact auditGo_consistent minLevel rest _ h3

/-- A rule below the severity threshold is skipped: running the loop with a
threshold is the same as running it with the below-threshold rules removed
from the table. -/
theorem checksLoop_filter (minLevel : Nat) (content : List Char) (fm : Fm) :
    ∀ (table : List SeoCheck) (st : AuditStats) (fi : List Finding),
      checksLoop minLevel content fm table st fi =
        checksLoop minLevel content fm
          (table.filter (fun ck => !decide (sevLevel ck.severity < minLevel))) st fi
  | [], _, _ => rfl
  | ck :: rest, st, fi => by
    by_cases hskip : sevLevel ck.severity < minLevel
    · have hf : (ck :: rest).filter (fun ck => !decide (sevLevel ck.severity < minLevel)) =
          rest.filter (fun ck => !decide (sevLevel ck.severity < minLevel)) := by
        simp [List.filter, hskip]
      rw [hf]
      simp only [checksLoop]
      rw [if_pos hskip]
      exact checksLoop_filter minLevel content fm rest st fi
    · have hf : (ck :: rest).filter (fun ck => !decide (sevLevel ck.severity < minLevel)) =
          ck :: rest.filter (fun ck => !decide (sevLevel ck.severity < minLevel)) := by
        simp [List.filter, hskip]
      rw [hf]
      simp only [checksLoop]
      rw [if_neg hskip, if_neg hskip]
      by_cases hfire : ck.check content fm = true
      · rw [if_pos hfire, if_pos hfire]
        cases hd : detailStep ck content fm with
        | none => rfl
        | some d => exact checksLoop_filter minLevel content fm rest _ _
      · rw [if_neg hfire, if_neg hfire]
        exact checksLoop_filter minLevel content fm rest st fi

/-- Saying that every detail function of a table succeeds whenever its
rule's predicate holds. -/
def detailsTotal (table : List SeoCheck) : Prop :=
  ∀ ck ∈ table, ∀ (content : List Char) (fm : Fm),
    ck.check content fm = true → (detailStep ck content fm).isSome = true

/-- In the shipped `SEO_CHECKS` table every detail computation is guarded by
its own predicate: whenever a rule fires, its detail step cannot throw. -/
theorem seoChecksDetailsTotal : detailsTotal SEO_CHECKS := by
  intro ck hmem content fm hfire
  simp only [SEO_CHECKS, List.mem_cons, List.mem_singleton] at hmem
  rcases hmem with h | h | h | h | h | h | h | h | h | h | h | h
  · subst h; rfl
  · subst h; rfl
  · subst h; rfl
  · subst h; rfl
  · -- Truncated Description: the predicate requires a truthy description
    subst h
    simp only [seoTruncatedDescription, truncatedDescriptionCheck] at hfire
    cases hg : objGet fm kDescription with
    | none => rw [hg] at hfire; simp at hfire
    | some d =>
      simp [seoTruncatedDescription, detailStep, truncatedDescriptionDetails, hg]
  · -- Description Too Short
    subst h
    simp only [seoDescriptionTooShort, descTooShortCheck] at hfire
    cases hg : objGet fm kDescription with
    | none => rw [hg] at hfire; simp at hfire
    | some d =>
      simp [seoDescriptionTooShort, detailStep, descLengthDetails, hg]
  · -- Description Too Long
    subst h
    simp only [seoDescriptionTooLong, descTooLongCheck] at hfire
    cases hg : objGet fm kDescription with
    | none => rw [hg] at hfire; simp at hfire
    | some d =>
      simp [seoDescriptionTooLong, detailStep, descLengthDetails, hg]
  · subst h; rfl
  · subst h; rfl
  · subst h; rfl
  · subst h; rfl
  · exact absurd h (List.not_mem_nil ck)

theorem checksLoop_ok (minLevel : Nat) (content : List Char) (fm : Fm) :
    ∀ (table : List SeoCheck) (st : AuditStats) (fi : List Finding),
      detailsTotal table →
      exceptIsOk (checksLoop minLevel content fm table st fi) = true
  | [], _, _, _ => rfl
  | ck :: rest, st, fi, htot => by
    have htl : detailsTotal rest := fun c hc => htot c (List.mem_cons_of_mem ck hc)
    simp only [checksLoop]
    by_cases hskip : sevLevel ck.severity < minLevel
    · rw [if_pos hskip]
      exact checksLoop_ok minLevel content fm rest st fi htl
    · rw [if_neg hskip]
      by_cases hfire : ck.check content fm = true
      · rw [if_pos hfire]
        have hs := htot ck (List.mem_cons_self ck rest) content fm hfire
        cases hd : detailStep ck content fm with
        | none => rw [hd] at hs; simp [Option.isSome] at hs
        | some d => exact checksLoop_ok minLevel content fm rest _ _ htl
      · rw [if_neg hfire]
        exact checksLoop_ok minLevel content fm rest st fi htl

/-- On readable files the audit run never aborts: no detail computation can
fail, so the per-file loop always completes. -/
theorem auditGo_ok (minLevel : Nat) :
    ∀ (docs : List (List Char)) (st : AuditStats),
      exceptIsOk (auditGo minLevel (docs.map some) st) = true
  | [], _ => rfl
  | content :: rest, st => by
    simp only [List.map, auditGo]
    have h := checksLoop_ok minLevel content (parseFrontmatter content) SEO_CHECKS
      { st with filesScanned := st.filesScanned + 1 } [] seoChecksDetailsTotal
    cases hq : checksLoop minLevel content (parseFrontmatter content) SEO_CHECKS
        { st with filesScanned := st.filesScanned + 1 } [] with
    | error st2 => rw [hq] at h; simp [exceptIsOk] at h
    | ok p => exact auditGo_ok minLevel rest _

/-- The audit main loop distributes over list append (an abort in the first
part short-circuits the rest). -/
theorem auditGo_append (minLevel : Nat) :
    ∀ (xs ys : List (Option (List Char))) (st : AuditStats),
      auditGo minLevel (xs ++ ys) st =
        (match auditGo minLevel xs st with
         | Except.ok st' => auditGo minLevel ys st'
         | Except.error e => Except.error e)
  | [], _, _ => rfl
  | none :: _, _, _ => rfl
  | some content :: xs, ys, st => by
    simp only [List.cons_append, auditGo]
    cases hq : checksLoop minLevel content (parseFrontmatter content) SEO_CHECKS
        { st with filesScanned := st.filesScanned + 1 } [] with
    | error st2 => rfl
    | ok p => exact auditGo_append minLevel xs ys _

/-!  Lemmas about the frontmatter extractor. -/

/-- CRLF normalisation is the identity on carriage-return-free text. -/
theorem normalize_no_cr : ∀ (l : List Char), '\r' ∉ l → normalize l = l
  | [], _ => rfl
  | [_], _ => rfl
  | a :: b :: cs, h => by
    have ha : ¬(a = '\r') := fun e => h (by rw [e]; exact List.mem_cons_self _ _)
    have hb : (a == '\r' && b == '\n') = false := by
      simp [ha]
    have ih := normalize_no_cr (b :: cs) (fun hm => h (List.mem_cons_of_mem a hm))
    simp [normalize, hb, ih]

/-- If the normalised text starts with a character other than the newline
that CRLF-collapsing produces, the raw text starts with that character and
normalisation continues on its tail. -/
theorem normalize_cons_of_ne_nl (s : List Char) (d : Char) (rest : List Char)
    (h : normalize s = d :: rest) (hd : d ≠ '\n') :
    ∃ s', s = d :: s' ∧ normalize s' = rest := by
  match s with
  | [] => exact absurd h (by simp [normalize])
  | [c] =>
    have h' : c = d ∧ rest = [] := by
      have := h
      simp only [normalize] at this
      simpa using this
    exact ⟨[], by simp [h'.1], by simp [normalize, h'.2]⟩
  | a :: b :: cs =>
    by_cases hcr : (a == '\r' && b == '\n') = true
    · exfalso
      have hnorm : normalize (a :: b :: cs) = '\n' :: normalize cs := by
        simp only [normalize]
        rw [if_pos hcr]
      rw [hnorm] at h
      injection h with h1 _
      exact hd (h1 ▸ rfl)
    · have hnorm : normalize (a :: b :: cs) = a :: normalize (b :: cs) := by
        simp only [normalize]
        rw [if_neg hcr]
      rw [hnorm] at h
      injection h with h1 h2
      exact ⟨b :: cs, by rw [h1], h2⟩

/-- A document whose normalised form opens a frontmatter block started with
the marker `---` already in the raw text. -/
theorem marker_of_normalized (s : List Char)
    (h : List.isPrefixOf (cl "---\n") (normalize s) = true) :
    List.isPrefixOf (cl "---") s = true := by
  have hpre : ∃ t, normalize s = '-' :: '-' :: '-' :: '\n' :: t := by
    rcases List.isPrefixOf_iff_prefix.mp h with ⟨t, ht⟩
    exact ⟨t, by simpa [cl] using ht.symm⟩
  rcases hpre with ⟨t, ht⟩
  rcases normalize_cons_of_ne_nl s '-' _ ht (by decide) with ⟨s1, rfl, h1⟩
  rcases normalize_cons_of_ne_nl s1 '-' _ h1 (by decide) with ⟨s2, rfl, h2⟩
  rcases normalize_cons_of_ne_nl s2 '-' _ h2 (by decide) with ⟨s3, rfl, _⟩
  simp [cl, List.isPrefixOf]

/-- `findSub` finds the first occurrence: if `w` matches at `n` and at no
earlier position, `findSub` returns `n`. -/
theorem findSub_first (w : List Char) :
    ∀ (s : List Char) (n : Nat),
      List.isPrefixOf w (s.drop n) = true →
      (∀ i, i < n → List.isPrefixOf w (s.drop i) = false) →
      findSub w s = some n
  | s, 0, hp, _ => by
    cases s with
    | nil => simp only [List.drop] at hp; simp [findSub, hp]
    | cons c cs => simp only [List.drop] at hp; simp [findSub, hp]
  | [], Nat.succ m, hp, hmin => by
    have h0 := hmin 0 (Nat.succ_pos m)
    simp only [List.drop] at hp h0
    rw [hp] at h0
    cases h0
  | c :: cs, Nat.succ m, hp, hmin => by
    have h0 : List.isPrefixOf w (c :: cs) = false := by
      simpa using hmin 0 (Nat.succ_pos m)
    have hrec := findSub_first w cs m (by simpa using hp)
      (fun i hi => by simpa using hmin (i + 1) (Nat.succ_lt_succ hi))
    simp [findSub, h0, hrec]

/-- A prefix is recognised by `List.isPrefixOf`. -/
theorem isPrefixOf_append_self (w t : List Char) :
    List.isPrefixOf w (w ++ t) = true :=
  List.isPrefixOf_iff_prefix.mpr ⟨t, rfl⟩

/-- A document that does not begin with the `---` marker parses to the empty
frontmatter object. -/
theorem parseFrontmatter_no_marker (s : List Char)
    (h : List.isPrefixOf (cl "---") s = false) : parseFrontmatter s = [] := by
  have hcond : ¬(List.isPrefixOf (cl "---\n") (normalize s) = true) := by
    intro hc
    rw [marker_of_normalized s hc] at h
    cases h
  simp only [parseFrontmatter]
  rw [if_neg hcond]

/-- The extractor captures exactly up to the FIRST newline-plus-`---`: on a
carriage-return-free document `---\n` ++ y ++ `\n---` ++ r in which the
delimiter sequence does not occur before the block's end, the parsed
frontmatter is the parse of `y` — whatever follows the closing `---`
(including further characters on the delimiter's line, inside `r`). -/
theorem parseFrontmatter_block (y r : List Char)
    (hy : '\r' ∉ y) (hr : '\r' ∉ r)
    (hmin : ∀ i, i < y.length →
      List.isPrefixOf (cl "\n---") ((y ++ (cl "\n---" ++ r)).drop i) = false) :
    parseFrontmatter (cl "---\n" ++ (y ++ (cl "\n---" ++ r))) = parseYaml y := by
  have hnocr : '\r' ∉ cl "---\n" ++ (y ++ (cl "\n---" ++ r)) := by
    simp only [List.mem_append, not_or]
    exact ⟨by decide, hy, by decide, hr⟩
  have hnorm := normalize_no_cr _ hnocr
  have hpre : List.isPrefixOf (cl "---\n") (cl "---\n" ++ (y ++ (cl "\n---" ++ r))) = true :=
    isPrefixOf_append_self _ _
  have hdrop : (cl "---\n" ++ (y ++ (cl "\n---" ++ r))).drop 4 = y ++ (cl "\n---" ++ r) :=
    List.drop_left' (by decide)
  have hfind : findSub (cl "\n---") (y ++ (cl "\n---" ++ r)) = some y.length := by
    apply findSub_first
    · rw [List.drop_left]
      exact isPrefixOf_append_self _ _
    · exact hmin
  have htake : (y ++ (cl "\n---" ++ r)).take y.length = y := List.take_left _ _
  simp only [parseFrontmatter]
  rw [hnorm, if_pos hpre, hdrop, hfind]
  exact congrArg parseYaml htake

/-!  Concrete documents used by counterexamples and witnesses. -/

/-- A document on which removing a Comments fragment splices the surrounding
text into a fresh Comments fragment: the text is
`<!-` ++ BEGIN ++ END ++ `- Begin Comments -->` ++ END, so deleting the
embedded BEGIN..END match leaves exactly BEGIN ++ END behind. -/
def spliceDoc : List Char :=
  cl "<!-" ++ cl "<!-- Begin Comments -->" ++ cl "<!-- End Comments -->" ++
  cl "- Begin Comments -->" ++ cl "<!-- End Comments -->"

/-- A page whose only audit finding is the warning-severity `Missing OG
Image`: it has one h1, a title, a well-formed description of length 66 and a
canonical URL, but no `ogImage` field. -/
def warnDoc : List Char :=
  cl "---\ntitle: \"My Page\"\ndescription: \"This is a description that is long enough to pass the checks, yes.\"\ncanonicalUrl: \"https://example.com/page/\"\n---\n<h1>My Page</h1>\n<p>Body text.</p>\n"

/-- A 62-character description ending in a short word fragment, on which the
`Truncated Description` predicate fires. -/
def fragDesc : List Char := List.replicate 60 'a' ++ cl " b"

/-!  The claims. -/

/-- Claim C1, counterexample: the claim asserts that the `Truncated
Description` rule fires for the description
`This is a great article about many thing`; but that string is 40
characters long, so the rule's `length > 50` conjunct fails and the rule
does not fire. -/
theorem claim1_counterexample :
    ¬(truncatedDescriptionCheck []
        [(kDescription, cl "This is a great article about many thing")] = true) := by
  decide

/-- Claim C1, amended: the warning-severity `Truncated Description` rule
fires exactly when the trimmed description has length > 50 and (ends with an
ellipsis marker, or ends with a word fragment of at most 3 characters, or
does not end with terminal punctuation or a closing quote) — and therefore
fires for NEITHER example description, both being at most 50 characters
long (40 and 42 characters). -/
theorem claim1_truncated_description :
    (∀ (content : List Char) (fm : Fm),
        truncatedDescriptionCheck content fm =
          truncatedDescriptionSpec (objGet fm kDescription)) ∧
    seoTruncatedDescription.severity = Sev.warning ∧
    truncatedDescriptionCheck []
      [(kDescription, cl "This is a great article about many thing")] = false ∧
    truncatedDescriptionCheck []
      [(kDescription, cl "This is a great article about many things.")] = false := by
  refine ⟨?_, rfl, by decide, by decide⟩
  intro content fm
  simp only [truncatedDescriptionCheck, truncatedDescriptionSpec]
  cases hg : objGet fm kDescription with
  | none => rfl
  | some d =>
    by_cases hd : d.isEmpty = true
    · have hnil : d = [] := by simpa using hd
      subst hnil
      decide
    · simp only [hd, Bool.false_eq_true, if_false]

/-- Claim C2, counterexample: the claim asserts that in the audit pipeline
too, a failure while reading one file is caught and processing continues
with the next file; but the audit loop has no per-file try/catch, so a run
over an unreadable file followed by a readable one aborts instead of
completing. -/
theorem claim2_counterexample :
    exceptIsOk (auditRun 1 [none, some (cl "<h1>x</h1>")]) = false := by rfl

/-- Claim C2, amended: in the cleanup pipeline a failure while processing
one file is caught and logged (the file still counts as scanned, since the
counter is bumped before the read), and processing continues with the rest
of the list wherever the failure sits; in the audit pipeline a read failure
is NOT caught: the run processes the readable prefix and then aborts,
leaving the remaining files unprocessed. -/
theorem claim2_per_file_failure :
    (∀ (table : List Rule) (dryRun : Bool) (xs ys : List (Option (List Char)))
        (st : CleanStats),
        cleanupFold table dryRun (xs ++ none :: ys) st =
          cleanupFold table dryRun ys
            { cleanupFold table dryRun xs st with
                filesScanned := (cleanupFold table dryRun xs st).filesScanned + 1 }) ∧
    (∀ (minLevel : Nat) (docs : List (List Char)) (ys : List (Option (List Char)))
        (st : AuditStats),
        ∃ st', auditGo minLevel (docs.map some) st = Except.ok st' ∧
          auditGo minLevel (docs.map some ++ none :: ys) st = Except.error st') := by
  constructor
  · intro table dryRun xs ys st
    rw [cleanupFold_append]
    rfl
  · intro m docs ys st
    have hok := auditGo_ok m docs st
    cases hq : auditGo m (docs.map some) st with
    | error e => rw [hq] at hok; simp [exceptIsOk] at hok
    | ok st' =>
      refine ⟨st', rfl, ?_⟩
      rw [auditGo_append m (docs.map some) (none :: ys) st, hq]
      rfl

/-- Claim C3: dry-run and real-run cleanup produce identical cleanup results
(the same transformed document, the same total removal count and the same
per-rule removal counts), and the dry run writes nothing back; only a real
run with a positive removal count produces a write. -/
theorem claim3_dry_run_equivalence (table : List Rule) (content : List Char) :
    (processFile table content true).1 = (processFile table content false).1 ∧
    (processFile table content true).2 = none := by
  constructor
  · rfl
  · simp [processFile]

/-- Claim C4, counterexample: applying the part_001 cleanup evaluator twice
to `spliceDoc` is NOT the same as applying it once — the first pass deletes
the embedded Comments fragment and thereby splices together a brand-new
Comments fragment, so the second pass finds one more removal and changes the
document again. -/
theorem claim4_counterexample :
    ¬((cleanupContent REMOVAL_PATTERNS1
        (cleanupContent REMOVAL_PATTERNS1 spliceDoc).modified).modified =
          (cleanupContent REMOVAL_PATTERNS1 spliceDoc).modified ∧
      (cleanupContent REMOVAL_PATTERNS1
        (cleanupContent REMOVAL_PATTERNS1 spliceDoc).modified).totalRemovals = 0) := by
  decide

/-- Claim C4, amended: the cleanup evaluator is not idempotent in general
(deleting a fragment can splice the surrounding text into a fresh match);
what does hold is that whenever a pass finds zero removals it leaves the
document unchanged, so a second application then returns the same result
and again finds zero removals. -/
theorem claim4_idempotence (table : List Rule) (content : List Char)
    (h : (cleanupContent table content).totalRemovals = 0) :
    cleanupContent table ((cleanupContent table content).modified) =
      cleanupContent table content ∧
    (cleanupContent table ((cleanupContent table content).modified)).totalRemovals = 0 := by
  have h1 := cleanupContent_total_zero table content h
  refine ⟨?_, ?_⟩
  · rw [h1]
    exact h1
  · rw [h1]
    exact h

/-- Witness for claim C4's amended theorem at a document with no matches. -/
theorem claim4_idempotence_witness :
    (cleanupContent REMOVAL_PATTERNS1 (cl "plain text")).totalRemovals = 0 ∧
    cleanupContent REMOVAL_PATTERNS1
        ((cleanupContent REMOVAL_PATTERNS1 (cl "plain text")).modified) =
      cleanupContent REMOVAL_PATTERNS1 (cl "plain text") :=
  ⟨by decide, (claim4_idempotence REMOVAL_PATTERNS1 (cl "plain text") (by decide)).1⟩

/-- Claim C5: the metadata extractor parses the example header block to
exactly the two expected key/value pairs (double quotes stripped from the
quoted title, the bare description value trimmed), and maps every document
that does not start with the `---` marker to the empty mapping rather than
failing. -/
theorem claim5_metadata_extraction :
    parseFrontmatter (cl "---\ntitle: \"Hello\"\ndescription: World\n---\nbody") =
      [(kTitle, cl "Hello"), (kDescription, cl "World")] ∧
    (∀ s : List Char, List.isPrefixOf (cl "---") s = false → parseFrontmatter s = []) := by
  constructor
  · decide
  · exact parseFrontmatter_no_marker

/-- Witness for claim C5's theorem at a document with no header block. -/
theorem claim5_metadata_extraction_witness :
    List.isPrefixOf (cl "---") (cl "just a page") = false ∧
    parseFrontmatter (cl "just a page") = [] :=
  ⟨by decide, claim5_metadata_extraction.2 (cl "just a page") (by decide)⟩

/-- Claim C6, counterexample: the claim asserts that a line that merely
begins with `---` but carries additional characters does not terminate the
header block.  In the document `---\na: 1\n---x\nb: 2\n---\nend` the line
`---x` is such a line and a pure `---` line follows later, so under the
claim the block would contain `b: 2` and the mapping would bind `b`; the
extractor instead terminates the block at `---x` and never sees `b`. -/
theorem claim6_counterexample :
    parseFrontmatter (cl "---\na: 1\n---x\nb: 2\n---\nend") = [(cl "a", cl "1")] ∧
    objGet (parseFrontmatter (cl "---\na: 1\n---x\nb: 2\n---\nend")) (cl "b") = none := by
  constructor <;> decide

/-- Claim C6, amended: a header block is recognised only when the
(CRLF-normalised) text starts with the marker line `---`, and the block
extends exactly up to the next line that BEGINS with `---` — the terminator
line may carry additional characters. -/
theorem claim6_header_block :
    (∀ s : List Char, List.isPrefixOf (cl "---\n") (normalize s) = false →
        parseFrontmatter s = []) ∧
    (∀ y r : List Char, '\r' ∉ y → '\r' ∉ r →
        (∀ i, i < y.length →
          List.isPrefixOf (cl "\n---") ((y ++ (cl "\n---" ++ r)).drop i) = false) →
        parseFrontmatter (cl "---\n" ++ (y ++ (cl "\n---" ++ r))) = parseYaml y) := by
  constructor
  · intro s h
    have hcond : ¬(List.isPrefixOf (cl "---\n") (normalize s) = true) := by
      rw [h]
      exact Bool.false_ne_true
    simp only [parseFrontmatter]
    rw [if_neg hcond]
  · exact parseFrontmatter_block

/-- Witness for claim C6's amended theorem on a small concrete block whose
closing `---` line carries a trailing payload in `r`. -/
theorem claim6_header_block_witness :
    ('\r' ∉ cl "title: a") ∧ ('\r' ∉ cl " body") ∧
    (∀ i, i < (cl "title: a").length →
      List.isPrefixOf (cl "\n---") ((cl "title: a" ++ (cl "\n---" ++ cl " body")).drop i)
        = false) ∧
    parseFrontmatter (cl "---\n" ++ (cl "title: a" ++ (cl "\n---" ++ cl " body"))) =
      parseYaml (cl "title: a") :=
  ⟨by decide, by decide, by decide,
   claim6_header_block.2 (cl "title: a") (cl " body") (by decide) (by decide) (by decide)⟩

/-- Claim C7: rules strictly below the severity threshold are suppressed
entirely — running the check loop at a threshold equals running it with the
below-threshold rules deleted from the table, so they contribute neither
findings nor statistics; concretely, `warnDoc`'s only finding at the default
threshold is one warning (`Missing OG Image`) and the file is listed among
the files with issues, while at threshold `error` the same document yields
zero findings and is excluded from the files with issues but still counts as
scanned. -/
theorem claim7_severity_filtering :
    (∀ (minLevel : Nat) (content : List Char) (fm : Fm) (table : List SeoCheck)
        (st : AuditStats) (fi : List Finding),
        checksLoop minLevel content fm table st fi =
          checksLoop minLevel content fm
            (table.filter (fun ck => !decide (sevLevel ck.severity < minLevel))) st fi) ∧
    auditRun 1 [some warnDoc] =
      Except.ok ⟨1, [("Missing OG Image", 1)], 0, 1, 0,
        [[⟨"Missing OG Image", Sev.warning, none⟩]]⟩ ∧
    auditRun 3 [some warnDoc] = Except.ok ⟨1, [], 0, 0, 0, []⟩ := by
  refine ⟨?_, by rfl, by rfl⟩
  intro m content fm table st fi
  exact checksLoop_filter m content fm table st fi

/-- Claim C8: in the shipped rule table every detail computation is guarded
by its own predicate, so whenever a rule fires its detail step succeeds
(a missing-description access can never be reached with the predicate true);
consequently the audit loop never aborts on a detail computation for any
sequence of readable documents, and — each finding's two counter increments
happening together after the detail step — the aggregator is never left
partially incremented. -/
theorem claim8_detail_failure :
    (∀ (content : List Char) (fm : Fm) (ck : SeoCheck), ck ∈ SEO_CHECKS →
        ck.check content fm = true → (detailStep ck content fm).isSome = true) ∧
    (∀ (minLevel : Nat) (docs : List (List Char)),
        exceptIsOk (auditRun minLevel (docs.map some)) = true) := by
  constructor
  · intro content fm ck hmem hfire
    exact seoChecksDetailsTotal ck hmem content fm hfire
  · intro m docs
    exact auditGo_ok m docs initAuditStats

/-- Witness for claim C8's theorem: the `Truncated Description` rule firing
on a 62-character fragment-final description, whose detail step succeeds. -/
theorem claim8_detail_failure_witness :
    seoTruncatedDescription ∈ SEO_CHECKS ∧
    seoTruncatedDescription.check [] [(kDescription, fragDesc)] = true ∧
    (detailStep seoTruncatedDescription [] [(kDescription, fragDesc)]).isSome = true := by
  refine ⟨?_, by decide, ?_⟩
  · simp [SEO_CHECKS]
  · exact claim8_detail_failure.1 [] [(kDescription, fragDesc)] seoTruncatedDescription
      (by simp [SEO_CHECKS]) (by decide)

/-- Claim C9: after any audit run — whatever the threshold, whatever the
sequence of documents, and whether or not the run aborted on an unreadable
file — the sum of the per-rule issue counts equals the sum of the
per-severity issue counts, every rule carrying exactly one severity. -/
theorem claim9_stats_invariant (minLevel : Nat) (files : List (Option (List Char))) :
    statsConsistent (auditResultStats (auditRun minLevel files)) :=
  auditGo_consistent minLevel files initAuditStats rfl

/-- Claim C10: the cleanup transform only deletes text — the result is never
longer than the input, and when no rule's pattern matches anywhere in the
document, the result is character-for-character identical to the input with
a total removal count of zero (and no per-rule counts). -/
theorem claim10_deletion_only (table : List Rule) (content : List Char) :
    (cleanupContent table content).modified.length ≤ content.length ∧
    ((∀ r ∈ table, (scan (matchPat r.pat) content).1 = 0) →
      cleanupContent table content = ⟨content, 0, []⟩) := by
  constructor
  · exact cleanupGo_length_le table ⟨content, 0, []⟩
  · intro h
    exact cleanupGo_no_match table ⟨content, 0, []⟩ h

/-- Witness for claim C10's theorem at a document none of the part_001 rules
match. -/
theorem claim10_deletion_only_witness :
    (∀ r ∈ REMOVAL_PATTERNS1, (scan (matchPat r.pat) (cl "hello world")).1 = 0) ∧
    cleanupContent REMOVAL_PATTERNS1 (cl "hello world") = ⟨cl "hello world", 0, []⟩ :=
  ⟨by decide, (claim10_deletion_only REMOVAL_PATTERNS1 (cl "hello world")).2 (by decide)⟩

end SiteHygiene
